import Mathlib

/-
  Verification of the chat-analyzer repository (preprocessor.py, helper.py)
  against its natural-language specification.

  The Python code is shallowly embedded: text is `List Char`, a pandas
  DataFrame of parsed chat records is `List Rec`, and each source function
  becomes a total Lean function translated from the Python source.
-/

set_option maxRecDepth 10000

/-! ## Basic string utilities (models of Python str methods) -/

/-- Python `s.strip(chars)`: remove characters of `chars` from both ends. -/
def pyStripChars (chars : List Char) (l : List Char) : List Char :=
  ((l.dropWhile (fun c => decide (c ∈ chars))).reverse.dropWhile
      (fun c => decide (c ∈ chars))).reverse

/-- Auxiliary fold for `pySplit`: returns the whitespace-split tokens of the
input together with a flag telling whether the input starts inside a token. -/
def pySplitF : List Char → List (List Char) × Bool
  | [] => ([], false)
  | c :: cs =>
    let r := pySplitF cs
    if c.isWhitespace then (r.1, false)
    else
      match r.2, r.1 with
      | true, t :: ts => ((c :: t) :: ts, true)
      | _, _ => ([c] :: r.1, true)

/-- Python `s.split()`: split on whitespace runs, dropping empty tokens. -/
def pySplit (l : List Char) : List (List Char) := (pySplitF l).1

/-- `isPrefixList pat l` checks that `pat` is an initial segment of `l`. -/
def isPrefixList : List Char → List Char → Bool
  | [], _ => true
  | _ :: _, [] => false
  | p :: ps, c :: cs => decide (p = c) && isPrefixList ps cs

/-- Python `pat in s` (substring containment). -/
def hasSub (pat : List Char) : List Char → Bool
  | [] => isPrefixList pat []
  | c :: cs => isPrefixList pat (c :: cs) || hasSub pat cs

/-- Python `': ' in s`. -/
def hasDelim : List Char → Bool
  | [] => false
  | c :: cs => (decide (c = ':') && decide (cs.head? = some ' ')) || hasDelim cs

/-- Python `s.split(': ', 1)`: split on the first occurrence of `": "`,
returning `none` when the delimiter does not occur. -/
def splitFirstDelim : List Char → Option (List Char × List Char)
  | [] => none
  | c :: cs =>
    if c = ':' ∧ cs.head? = some ' ' then some ([], cs.tail)
    else (splitFirstDelim cs).map (fun p => (c :: p.1, p.2))

/-- Python `' '.join(ls)`. -/
def joinSpace (ls : List (List Char)) : List Char := List.intercalate [' '] ls

/-- Keys of a list in order of first occurrence (used to model
pandas/Counter grouping, which iterates distinct keys). -/
def firstKeys {κ : Type} [DecidableEq κ] : List κ → List κ
  | [] => []
  | x :: xs => x :: (firstKeys xs).filter (fun y => decide (y ≠ x))

/-! ## Calendar arithmetic (models pandas datetime accessors) -/

def isLeap (y : Nat) : Bool := y % 4 == 0 && (y % 100 != 0 || y % 400 == 0)

def monthDays (y m : Nat) : Nat :=
  if m = 2 then (if isLeap y then 29 else 28)
  else if m = 4 ∨ m = 6 ∨ m = 9 ∨ m = 11 then 30
  else 31

def monthNames : List (List Char) :=
  ["January".data, "February".data, "March".data, "April".data, "May".data,
   "June".data, "July".data, "August".data, "September".data, "October".data,
   "November".data, "December".data]

def monthName (m : Nat) : List Char := monthNames.getD (m - 1) []

def weekdayNames : List (List Char) :=
  ["Monday".data, "Tuesday".data, "Wednesday".data, "Thursday".data,
   "Friday".data, "Saturday".data, "Sunday".data]

/-- Days before the months `1..m-1` of year `y`. -/
def daysBeforeMonth (y m : Nat) : Nat :=
  ((List.range (m - 1)).map (fun i => monthDays y (i + 1))).sum

/-- Rata-die day number of a proleptic Gregorian date (1 = 1 Jan year 1). -/
def rataDie (y m d : Nat) : Nat :=
  365 * (y - 1) + (y - 1) / 4 - (y - 1) / 100 + (y - 1) / 400 + daysBeforeMonth y m + d

/-- Full English weekday name, as `Series.dt.day_name()` produces. -/
def dayName (y m d : Nat) : List Char :=
  weekdayNames.getD ((rataDie y m d + 6) % 7) []

/-! ## Timestamp prefix pattern
`r'(\d{1,2}/\d{1,2}/\d{2}, \d{1,2}:\d{2} - )'`, matched like `re.split`.
The quantified digit groups are each followed by a non-digit literal, so
regex backtracking reduces to: a maximal digit run of the allowed length
followed by the literal. -/

inductive PatItem where
  | d12 : PatItem
  | d2 : PatItem
  | lit : Char → PatItem

/-- Match one regex item at the head of the input, returning the rest. -/
def stepItem : PatItem → List Char → Option (List Char)
  | .d12, l =>
    let n := (l.takeWhile Char.isDigit).length
    if n = 1 ∨ n = 2 then some (l.dropWhile Char.isDigit) else none
  | .d2, l =>
    let n := (l.takeWhile Char.isDigit).length
    if n = 2 then some (l.dropWhile Char.isDigit) else none
  | .lit c, l =>
    match l with
    | [] => none
    | x :: xs => if x = c then some xs else none

/-- The timestamp pattern as a sequence of items. -/
def tsPat : List PatItem :=
  [.d12, .lit '/', .d12, .lit '/', .d2, .lit ',', .lit ' ',
   .d12, .lit ':', .d2, .lit ' ', .lit '-', .lit ' ']

def runPat : List PatItem → List Char → Option (List Char)
  | [], l => some l
  | i :: ps, l =>
    match stepItem i l with
    | none => none
    | some r => runPat ps r

/-- Leftmost match of the timestamp pattern (as `re` scanning finds it):
returns `(text before the match, matched text, text after the match)`. -/
def findStamp : List Char → Option (List Char × List Char × List Char)
  | [] => none
  | c :: cs =>
    match runPat tsPat (c :: cs) with
    | some r => some ([], (c :: cs).take ((c :: cs).length - r.length), r)
    | none => (findStamp cs).map (fun p => (c :: p.1, p.2.1, p.2.2))

/-- The alternating `(matched prefix, following body)` pairs produced by
`re.split(pattern, raw)[1:]` followed by `zip(parts[0::2], parts[1::2])`.
The fuel only bounds the number of messages; every match consumes at least
one character of `rest`, so a fuel of the total input length never runs
out before the scan is complete. -/
def collectPairs : Nat → List Char → List Char → List (List Char × List Char)
  | 0, m, rest => [(m, rest)]
  | fuel + 1, m, rest =>
    match findStamp rest with
    | none => [(m, rest)]
    | some p => (m, p.1) :: collectPairs fuel p.2.1 p.2.2

def stampPairs (raw : List Char) : List (List Char × List Char) :=
  match findStamp raw with
  | none => []
  | some p => collectPairs raw.length p.2.1 p.2.2

/-! ## Date-time parsing
Models `pd.to_datetime(s, format='%d/%m/%y, %H:%M', errors='coerce')`:
day-first with 1-2 digit day/month/hour, 2-digit year (00-68 maps to
2000-2068, 69-99 to 1969-1999) and 2-digit minute; out-of-range calendar
components make the parse fail (the row is then dropped, like `NaT`). -/

structure DT where
  year : Nat
  month : Nat
  day : Nat
  hour : Nat
  minute : Nat
deriving DecidableEq

def readNat (l : List Char) : Nat := l.foldl (fun a c => a * 10 + (c.toNat - 48)) 0

def toDT (l : List Char) : Option DT :=
  let dD := l.takeWhile Char.isDigit
  let r1 := l.dropWhile Char.isDigit
  match r1 with
  | '/' :: r2 =>
    let mD := r2.takeWhile Char.isDigit
    let r3 := r2.dropWhile Char.isDigit
    match r3 with
    | '/' :: r4 =>
      let yD := r4.takeWhile Char.isDigit
      let r5 := r4.dropWhile Char.isDigit
      match r5 with
      | ',' :: ' ' :: r6 =>
        let hD := r6.takeWhile Char.isDigit
        let r7 := r6.dropWhile Char.isDigit
        match r7 with
        | ':' :: r8 =>
          let nD := r8.takeWhile Char.isDigit
          let r9 := r8.dropWhile Char.isDigit
          if r9 = [] ∧ (dD.length = 1 ∨ dD.length = 2) ∧ (mD.length = 1 ∨ mD.length = 2) ∧
              yD.length = 2 ∧ (hD.length = 1 ∨ hD.length = 2) ∧ nD.length = 2 then
            let d := readNat dD
            let mo := readNat mD
            let yy := readNat yD
            let h := readNat hD
            let mi := readNat nD
            let y := if yy ≤ 68 then 2000 + yy else 1900 + yy
            if 1 ≤ mo ∧ mo ≤ 12 ∧ 1 ≤ d ∧ d ≤ monthDays y mo ∧ h ≤ 23 ∧ mi ≤ 59 then
              some ⟨y, mo, d, h, mi⟩
            else none
          else none
        | _ => none
      | _ => none
    | _ => none
  | _ => none

/-! ## Parsed chat records (rows of the DataFrame built by `preprocess`) -/

structure Rec where
  message_date : DT
  user : List Char
  message : List Char
  year : Nat
  month : List Char
  month_num : Nat
  day : Nat
  hour : Nat
  minute : Nat
  weekday : List Char
  only_date : Nat × Nat × Nat
  /-- The `period` column is absent (`none`) after `preprocess`;
  `activity_heatmap` assigns it on its copy of the table. -/
  period : Option (List Char)
deriving DecidableEq

/-- One tuple of the `records` list in `preprocess`:
`(date_str stripped of ' -', user, message)` after the `': '` split. -/
def parseEntry (p : List Char × List Char) : List Char × List Char × List Char :=
  let date_str := pyStripChars [' ', '-'] p.1
  let message_str := pyStripChars ['\n'] p.2
  match splitFirstDelim message_str with
  | some q => (date_str, q.1, q.2)
  | none => (date_str, "group_notification".data, message_str)

/-- Build a row with its derived datetime columns. -/
def mkRec (d : DT) (u m : List Char) : Rec :=
  { message_date := d, user := u, message := m,
    year := d.year, month := monthName d.month, month_num := d.month,
    day := d.day, hour := d.hour, minute := d.minute,
    weekday := dayName d.year d.month d.day,
    only_date := (d.year, d.month, d.day), period := none }

/-- `preprocessor.preprocess`: split on the timestamp pattern, strip,
split user from message, parse dates, drop rows whose date fails. -/
def preprocess (raw : List Char) : List Rec :=
  ((stampPairs raw).map parseEntry).filterMap
    (fun t => (toDT t.1).map (fun d => mkRec d t.2.1 t.2.2))




/-! ## Aggregation views (helper.py)
Every view first applies the shared filter step
`if selected_user != 'Overall': data = data[data['user'] == selected_user]`. -/

def filterUser (u : List Char) (df : List Rec) : List Rec :=
  if u ≠ "Overall".data then df.filter (fun r => decide (r.user = u)) else df

/-- Models the external `URLExtract().find_urls`: whitespace-separated
tokens recognized as URLs by scheme, `www.` or a common bare-domain form. -/
def find_urls (msg : List Char) : List (List Char) :=
  (pySplit msg).filter (fun t =>
    isPrefixList "http://".data t || isPrefixList "https://".data t ||
    isPrefixList "www.".data t || hasSub ".com".data t)

/-- The four statistics of `fetch_stats` computed on an already-filtered
table: message count, whitespace-token word count over all messages,
count of exact `'<Media omitted>'` messages, and detected-URL count. -/
def statsOf (data : List Rec) : Nat × Nat × Nat × Nat :=
  (data.length,
   (data.map (fun r => (pySplit r.message).length)).sum,
   (data.filter (fun r => decide (r.message = "<Media omitted>".data))).length,
   (data.map (fun r => (find_urls r.message).length)).sum)

/-- `helper.fetch_stats`. -/
def fetch_stats (u : List Char) (df : List Rec) : Nat × Nat × Nat × Nat :=
  statsOf (filterUser u df)

/-- Descending-count order used by `value_counts` and `Counter.most_common`. -/
def descCount {κ : Type} : (κ × Nat) → (κ × Nat) → Prop := fun p q => q.2 ≤ p.2

instance {κ : Type} : DecidableRel (descCount (κ := κ)) := fun p q => Nat.decLe q.2 p.2

instance {κ : Type} : IsTotal (κ × Nat) descCount :=
  ⟨fun a b => (Nat.le_total b.2 a.2).imp id id⟩

instance {κ : Type} : IsTrans (κ × Nat) descCount :=
  ⟨fun _ _ _ h1 h2 => Nat.le_trans h2 h1⟩

/-- `Series.value_counts()`: occurrence counts of the distinct values,
sorted by count descending (stable on ties). -/
def value_counts {κ : Type} [DecidableEq κ] (l : List κ) : List (κ × Nat) :=
  List.insertionSort descCount
    ((firstKeys l).map (fun k => (k, (l.filter (fun x => decide (x = k))).length)))

/-- Round `a / b` to the nearest integer with ties to even,
as Python/numpy rounding behaves. -/
def roundHalfEvenDiv (a b : Nat) : Nat :=
  let n := a / b
  let r := a % b
  if 2 * r < b then n
  else if b < 2 * r then n + 1
  else if n % 2 = 0 then n else n + 1

/-- `(count / total * 100).round(2)`, represented exactly as an integer
number of hundredths of a percent (the value times 100). -/
def pct2 (part whole : Nat) : Nat := roundHalfEvenDiv (part * 10000) whole

/-- `helper.most_busy_users`: per-user counts without the sentinel row,
plus the percentage table `(user, percent)`; the percent entry is in
hundredths of a percent (see `pct2`). -/
def most_busy_users (df : List Rec) : List (List Char × Nat) × List (List Char × Nat) :=
  let user_counts := (value_counts (df.map (fun r => r.user))).filter
    (fun p => decide (p.1 ≠ "group_notification".data))
  let total := (user_counts.map (fun p => p.2)).sum
  (user_counts,
   user_counts.map (fun p => (p.1, pct2 p.2 total)))

/-- The cleaned corpus built by `create_wordcloud` (the external
`WordCloud.generate` rendering is outside the embedding, so the view
returns the text it feeds to it): drop media rows, lowercase, remove
stop words, join with single spaces. -/
def wordcloudOf (content : List Char) (data : List Rec) : List Char :=
  let stop_words := pySplit content
  let data2 := data.filter (fun r => !(hasSub "<Media omitted>".data r.message))
  joinSpace (data2.map (fun r =>
    joinSpace ((pySplit (r.message.map Char.toLower)).filter
      (fun w => decide (w ∉ stop_words)))))

/-- `helper.create_wordcloud`. The first argument is the content of
`stop_hinglish.txt` if the file exists; the function opens the file on
every call, so a missing file raises (`Except.error`) at call time. -/
def create_wordcloud (stop : Option (List Char)) (u : List Char) (df : List Rec) :
    Except Unit (List Char) :=
  match stop with
  | none => Except.error ()
  | some content => Except.ok (wordcloudOf content (filterUser u df))

/-- `Counter(ws).most_common(n)`: counts by first-occurrence key order,
stably sorted by count descending, truncated to `n`. -/
def counterMostCommon (n : Nat) (ws : List (List Char)) : List (List Char × Nat) :=
  (List.insertionSort descCount
    ((firstKeys ws).map (fun k => (k, (ws.filter (fun x => decide (x = k))).length)))).take n

/-- The top-20 word table of `most_common_words` on an already-filtered
table, given the stopword file content. -/
def commonWordsOf (content : List Char) (data : List Rec) : List (List Char × Nat) :=
  let stop_words := pySplit content
  let temp := data.filter (fun r => !(hasSub "<Media omitted>".data r.message))
  let temp2 := temp.filter (fun r => !(hasSub "http".data r.message))
  let words := (temp2.map (fun r =>
    (pySplit (r.message.map Char.toLower)).filter
      (fun w => decide (w ≠ []) && w.all Char.isAlpha && decide (w ∉ stop_words)))).flatten
  counterMostCommon 20 words

/-- `helper.most_common_words`. Opens the stopword file on every call:
a missing file raises (`Except.error`) at call time. -/
def most_common_words (stop : Option (List Char)) (u : List Char) (df : List Rec) :
    Except Unit (List (List Char × Nat)) :=
  match stop with
  | none => Except.error ()
  | some content => Except.ok (commonWordsOf content (filterUser u df))

/-- Models membership in the external `emoji.EMOJI_DATA` key set by
code-point ranges of the common emoji blocks. -/
def isEmojiChar (c : Char) : Bool :=
  (0x1F300 ≤ c.toNat && c.toNat ≤ 0x1FAFF) ||
  (0x2600 ≤ c.toNat && c.toNat ≤ 0x27BF) ||
  (0x1F1E6 ≤ c.toNat && c.toNat ≤ 0x1F1FF)

/-- `helper.emoji_helper` on an already-filtered table. -/
def emojiOf (data : List Rec) : List (Char × Nat) :=
  let emojis_list := (data.map (fun r => r.message.filter isEmojiChar)).flatten
  if emojis_list = [] then []
  else
    List.insertionSort descCount
      ((firstKeys emojis_list).map
        (fun k => (k, (emojis_list.filter (fun x => decide (x = k))).length)))

def emoji_helper (u : List Char) (df : List Rec) : List (Char × Nat) :=
  emojiOf (filterUser u df)

/-- Lexicographic codepoint order on strings, as Python string `<`. -/
def strLeB : List Char → List Char → Bool
  | [], _ => true
  | _ :: _, [] => false
  | a :: as, b :: bs => decide (a.toNat < b.toNat) || (decide (a = b) && strLeB as bs)

def strLe : List Char → List Char → Prop := fun a b => strLeB a b = true

instance : DecidableRel strLe := fun a b => instDecidableEqBool (strLeB a b) true

/-- Ascending order on the `(year, month_num, month)` group keys. -/
def leKeyM : (Nat × Nat × List Char) → (Nat × Nat × List Char) → Prop := fun a b =>
  a.1 < b.1 ∨ (a.1 = b.1 ∧ (a.2.1 < b.2.1 ∨ (a.2.1 = b.2.1 ∧ strLe a.2.2 b.2.2)))

instance : DecidableRel leKeyM := fun a b => by unfold leKeyM; infer_instance

/-- Ascending order on `only_date` keys. -/
def leKeyD : (Nat × Nat × Nat) → (Nat × Nat × Nat) → Prop := fun a b =>
  a.1 < b.1 ∨ (a.1 = b.1 ∧ (a.2.1 < b.2.1 ∨ (a.2.1 = b.2.1 ∧ a.2.2 ≤ b.2.2)))

instance : DecidableRel leKeyD := fun a b => by unfold leKeyD; infer_instance

def monthlyKey (r : Rec) : Nat × Nat × List Char := (r.year, r.month_num, r.month)

/-- `helper.monthly_timeline` on an already-filtered table: rows
`(group key, message count, time label "<MonthName> <Year>")`,
grouped keys in ascending order as `groupby` sorts them. -/
def monthlyOf (data : List Rec) : List ((Nat × Nat × List Char) × Nat × List Char) :=
  (List.insertionSort leKeyM (firstKeys (data.map monthlyKey))).map
    (fun k => (k, (data.filter (fun r => decide (monthlyKey r = k))).length,
      k.2.2 ++ ' ' :: (Nat.repr k.1).data))

def monthly_timeline (u : List Char) (df : List Rec) :
    List ((Nat × Nat × List Char) × Nat × List Char) :=
  monthlyOf (filterUser u df)

/-- Daily grouping shared by `helper.daily_timeline` and
`preprocessor.daily_timeline`: `(only_date, message count)` rows with
dates ascending as `groupby` sorts them. -/
def dailyOf (data : List Rec) : List ((Nat × Nat × Nat) × Nat) :=
  (List.insertionSort leKeyD (firstKeys (data.map (fun r => r.only_date)))).map
    (fun k => (k, (data.filter (fun r => decide (r.only_date = k))).length))

def daily_timeline (u : List Char) (df : List Rec) : List ((Nat × Nat × Nat) × Nat) :=
  dailyOf (filterUser u df)

/-- `preprocessor.daily_timeline` computes the same rows (its
`rename(columns={'message': 'message_count'})` only relabels a column of
the fresh result frame). -/
def pre_daily_timeline (u : List Char) (df : List Rec) : List ((Nat × Nat × Nat) × Nat) :=
  dailyOf (if u ≠ "Overall".data then df.filter (fun r => decide (r.user = u)) else df)

def week_activity_map (u : List Char) (df : List Rec) : List (List Char × Nat) :=
  value_counts ((filterUser u df).map (fun r => r.weekday))

def month_activity_map (u : List Char) (df : List Rec) : List (List Char × Nat) :=
  value_counts ((filterUser u df).map (fun r => r.month))

/-- The hour-range label `f"{h}-{(h+1) % 24}"`. -/
def periodOf (h : Nat) : List Char :=
  (Nat.repr h).data ++ '-' :: (Nat.repr ((h + 1) % 24)).data

/-- `data['period'] = data['hour'].apply(lambda h: f"{h}-{(h+1)%24}")`. -/
def addPeriod (r : Rec) : Rec := { r with period := some (periodOf r.hour) }

/-- The pivot table of `activity_heatmap` on the filtered,
period-assigned table: columns are the period labels present in the data
(sorted, as `pivot_table` sorts its column index); each of the 7 weekday
rows carries `some` counts when the weekday occurs in the data (absent
weekday/period combinations filled 0 by `fillna`), and `none` when
`reindex` introduces the weekday as an all-NaN row. -/
def pivotOf (data : List Rec) : List (List Char) × List (List Char × Option (List Nat)) :=
  let rows0 := firstKeys (data.map (fun r => r.weekday))
  let cols := List.insertionSort strLe (firstKeys (data.map (fun r => r.period.getD [])))
  (cols,
   weekdayNames.map (fun w =>
     (w, if w ∈ rows0 then
           some (cols.map (fun c =>
             (data.filter (fun r => decide (r.weekday = w ∧ r.period = some c))).length))
         else none)))

/-- `helper.activity_heatmap`. -/
def activity_heatmap (u : List Char) (df : List Rec) :
    List (List Char) × List (List Char × Option (List Nat)) :=
  pivotOf ((filterUser u df).map addPeriod)




/-! ## Object-store model for the frame property
Python DataFrames are heap objects referenced by name. To express that no
view mutates the caller's table, each view is restated over an explicit
store of record tables: `df.copy()` and the row-filter rebinding allocate
fresh objects, and the one in-place column assignment
(`data['period'] = ...` in `activity_heatmap`) updates the store at the
reference currently bound to `data`. Result frames produced by
`groupby`/`value_counts`/`pivot_table` are fresh non-record objects and
are returned by value; the in-place `rename` of
`preprocessor.daily_timeline` and the `timeline['time']` assignment of
`monthly_timeline` act on those fresh frames only. -/

abbrev Table := List Rec

abbrev Store := List Table

def getT (s : Store) (i : Nat) : Table := s.getD i []

def allocT (s : Store) (t : Table) : Nat × Store := (s.length, s ++ [t])

def setT (s : Store) (i : Nat) (t : Table) : Store := s.set i t

/-- The shared filter step, store-level: when the user is not `'Overall'`
the name is rebound to a freshly allocated filtered frame. -/
def filterAlloc (u : List Char) (d : Nat) (s : Store) : Nat × Store :=
  if u ≠ "Overall".data then
    allocT s ((getT s d).filter (fun r => decide (r.user = u)))
  else (d, s)

def fetch_stats_st (u : List Char) (df : Nat) (s : Store) :
    (Nat × Nat × Nat × Nat) × Store :=
  let p := allocT s (getT s df)
  let q := filterAlloc u p.1 p.2
  (statsOf (getT q.2 q.1), q.2)

/-- `most_busy_users` reads `df['user']` directly (no copy, no rebinding). -/
def most_busy_users_st (df : Nat) (s : Store) :
    (List (List Char × Nat) × List (List Char × Nat)) × Store :=
  (most_busy_users (getT s df), s)

def create_wordcloud_st (stop : Option (List Char)) (u : List Char) (df : Nat)
    (s : Store) : Except Unit (List Char) × Store :=
  match stop with
  | none => (Except.error (), s)
  | some content =>
    let p := allocT s (getT s df)
    let q := filterAlloc u p.1 p.2
    let q2 := allocT q.2 ((getT q.2 q.1).filter
      (fun r => !(hasSub "<Media omitted>".data r.message)))
    (Except.ok (wordcloudOf content (getT q.2 q.1)), q2.2)

def most_common_words_st (stop : Option (List Char)) (u : List Char) (df : Nat)
    (s : Store) : Except Unit (List (List Char × Nat)) × Store :=
  match stop with
  | none => (Except.error (), s)
  | some content =>
    let p := allocT s (getT s df)
    let q := filterAlloc u p.1 p.2
    let q2 := allocT q.2 ((getT q.2 q.1).filter
      (fun r => !(hasSub "<Media omitted>".data r.message)))
    let q3 := allocT q2.2 ((getT q2.2 q2.1).filter
      (fun r => !(hasSub "http".data r.message)))
    (Except.ok (commonWordsOf content (getT q.2 q.1)), q3.2)

def emoji_helper_st (u : List Char) (df : Nat) (s : Store) :
    List (Char × Nat) × Store :=
  let p := allocT s (getT s df)
  let q := filterAlloc u p.1 p.2
  (emojiOf (getT q.2 q.1), q.2)

def monthly_timeline_st (u : List Char) (df : Nat) (s : Store) :
    List ((Nat × Nat × List Char) × Nat × List Char) × Store :=
  let p := allocT s (getT s df)
  let q := filterAlloc u p.1 p.2
  (monthlyOf (getT q.2 q.1), q.2)

def daily_timeline_st (u : List Char) (df : Nat) (s : Store) :
    List ((Nat × Nat × Nat) × Nat) × Store :=
  let p := allocT s (getT s df)
  let q := filterAlloc u p.1 p.2
  (dailyOf (getT q.2 q.1), q.2)

/-- `preprocessor.daily_timeline` takes no copy: with `'Overall'` the
name `data` stays aliased to the caller's frame. -/
def pre_daily_timeline_st (u : List Char) (df : Nat) (s : Store) :
    List ((Nat × Nat × Nat) × Nat) × Store :=
  let q := filterAlloc u df s
  (dailyOf (getT q.2 q.1), q.2)

def week_activity_map_st (u : List Char) (df : Nat) (s : Store) :
    List (List Char × Nat) × Store :=
  let p := allocT s (getT s df)
  let q := filterAlloc u p.1 p.2
  (value_counts ((getT q.2 q.1).map (fun r => r.weekday)), q.2)

def month_activity_map_st (u : List Char) (df : Nat) (s : Store) :
    List (List Char × Nat) × Store :=
  let p := allocT s (getT s df)
  let q := filterAlloc u p.1 p.2
  (value_counts ((getT q.2 q.1).map (fun r => r.month)), q.2)

def activity_heatmap_st (u : List Char) (df : Nat) (s : Store) :
    (List (List Char) × List (List Char × Option (List Nat))) × Store :=
  let p := allocT s (getT s df)
  let q := filterAlloc u p.1 p.2
  let s3 := setT q.2 q.1 ((getT q.2 q.1).map addPeriod)
  (pivotOf (getT s3 q.1), s3)

/-! ## Store lemmas -/

theorem getT_allocT {s : Store} {t : Table} {i : Nat} (h : i < s.length) :
    getT (allocT s t).2 i = getT s i := by
  simp only [getT, allocT]
  exact List.getD_append s [t] [] i h

theorem allocT_len (s : Store) (t : Table) : (allocT s t).2.length = s.length + 1 := by
  simp [allocT]

theorem allocT_fst (s : Store) (t : Table) : (allocT s t).1 = s.length := rfl

theorem getT_filterAlloc {u : List Char} {d : Nat} {s : Store} {i : Nat}
    (h : i < s.length) : getT (filterAlloc u d s).2 i = getT s i := by
  unfold filterAlloc
  split
  · exact getT_allocT h
  · rfl

theorem filterAlloc_len {u : List Char} {d : Nat} {s : Store} :
    s.length ≤ (filterAlloc u d s).2.length := by
  unfold filterAlloc
  split
  · simp [allocT]
  · exact Nat.le_refl _

theorem filterAlloc_fst_lb {u : List Char} {d : Nat} {s : Store} {n : Nat}
    (hd : n ≤ d) (hs : n ≤ s.length) : n ≤ (filterAlloc u d s).1 := by
  unfold filterAlloc
  split
  · simpa [allocT] using hs
  · exact hd

theorem getT_setT_ne {s : Store} {j : Nat} {t : Table} {i : Nat} (h : i ≠ j) :
    getT (setT s j t) i = getT s i := by
  simp only [getT, setT, List.getD_eq_getElem?_getD]
  rw [List.getElem?_set_ne (Ne.symm h)]

/-! ## Counting partition lemmas -/

theorem sumMapAdd {κ : Type} (g h : κ → Nat) (ks : List κ) :
    (ks.map (fun k => g k + h k)).sum = (ks.map g).sum + (ks.map h).sum := by
  induction ks with
  | nil => rfl
  | cons k ks ih => simp [ih]; omega

theorem sum_ite_zero {κ : Type} [DecidableEq κ] (x : κ) (ks : List κ) (hx : x ∉ ks) :
    (ks.map (fun k => if x = k then 1 else 0)).sum = 0 := by
  induction ks with
  | nil => rfl
  | cons k ks ih =>
      simp only [List.mem_cons, not_or] at hx
      simp [hx.1, ih hx.2]

theorem sum_ite_one {κ : Type} [DecidableEq κ] (x : κ) (ks : List κ)
    (hnd : ks.Nodup) (hx : x ∈ ks) :
    (ks.map (fun k => if x = k then 1 else 0)).sum = 1 := by
  induction ks with
  | nil => cases hx
  | cons k ks ih =>
      rcases List.mem_cons.mp hx with h | h
      · subst h
        have : x ∉ ks := (List.nodup_cons.mp hnd).1
        simp [sum_ite_zero x ks this]
      · have hne : x ≠ k := by
          rintro rfl
          exact (List.nodup_cons.mp hnd).1 h
        simp [hne, ih (List.nodup_cons.mp hnd).2 h]

/-- Partitioning a list by the value of a key function: the filtered
lengths over a duplicate-free covering key list sum to the total length. -/
theorem partition_length {α κ : Type} [DecidableEq κ] (f : α → κ) :
    ∀ (l : List α) (ks : List κ), ks.Nodup → (∀ a ∈ l, f a ∈ ks) →
      (ks.map (fun k => (l.filter (fun a => decide (f a = k))).length)).sum = l.length := by
  intro l
  induction l with
  | nil => intro ks _ _; simp [List.sum_eq_zero]
  | cons a l ih =>
      intro ks hnd hcov
      have hstep : (ks.map (fun k => ((a :: l).filter (fun x => decide (f x = k))).length)) =
          ks.map (fun k => (if f a = k then 1 else 0) +
            (l.filter (fun x => decide (f x = k))).length) := by
        apply List.map_congr_left
        intro k _
        by_cases hk : f a = k
        · simp [List.filter_cons, hk, Nat.add_comm]
        · simp [List.filter_cons, hk]
      rw [hstep, sumMapAdd]
      have h1 : (ks.map (fun k => if f a = k then 1 else 0)).sum = 1 :=
        sum_ite_one (f a) ks hnd (hcov a (List.mem_cons_self a l))
      have h2 := ih ks hnd (fun x hx => hcov x (List.mem_cons_of_mem a hx))
      rw [h1, h2]
      simp [Nat.add_comm]

/-! ## firstKeys lemmas -/

theorem firstKeys_mem {κ : Type} [DecidableEq κ] {l : List κ} {a : κ} :
    a ∈ firstKeys l ↔ a ∈ l := by
  induction l with
  | nil => simp [firstKeys]
  | cons x xs ih =>
      simp only [firstKeys, List.mem_cons]
      constructor
      · rintro (rfl | h)
        · exact Or.inl rfl
        · exact Or.inr (ih.mp (List.mem_of_mem_filter h))
      · rintro (rfl | h)
        · exact Or.inl rfl
        · by_cases hax : a = x
          · exact Or.inl hax
          · refine Or.inr (List.mem_filter.mpr ⟨ih.mpr h, by simp [hax]⟩)

theorem firstKeys_nodup {κ : Type} [DecidableEq κ] (l : List κ) :
    (firstKeys l).Nodup := by
  induction l with
  | nil => simp [firstKeys]
  | cons x xs ih =>
      simp only [firstKeys]
      refine List.nodup_cons.mpr ⟨?_, List.Nodup.filter _ ih⟩
      intro hmem
      have := (List.mem_filter.mp hmem).2
      simp at this

/-! ## Lemmas about the user/message split -/

theorem splitFirstDelim_none : ∀ {l : List Char}, splitFirstDelim l = none →
    hasDelim l = false := by
  intro l
  induction l with
  | nil => intro _; rfl
  | cons c cs ih =>
      intro h
      simp only [splitFirstDelim] at h
      split at h
      · exact absurd h (by simp)
      · rename_i hcond
        have hcs : splitFirstDelim cs = none := by
          cases hx : splitFirstDelim cs with
          | none => rfl
          | some p => rw [hx] at h; exact absurd h (by simp)
        have := ih hcs
        simp only [hasDelim, this, Bool.or_false]
        rw [Bool.and_eq_false_iff]
        by_cases h1 : c = ':'
        · right
          by_cases h2 : cs.head? = some ' '
          · exact absurd ⟨h1, h2⟩ hcond
          · simp [h2]
        · left
          simp [h1]

theorem splitFirstDelim_some : ∀ {l a b : List Char},
    splitFirstDelim l = some (a, b) →
      l = a ++ ':' :: ' ' :: b ∧ hasDelim a = false := by
  intro l
  induction l with
  | nil => intro a b h; simp [splitFirstDelim] at h
  | cons c cs ih =>
      intro a b h
      simp only [splitFirstDelim] at h
      split at h
      · rename_i hcond
        obtain ⟨hc, hh⟩ := hcond
        cases cs with
        | nil => simp at hh
        | cons c2 cs2 =>
            simp only [List.head?] at hh
            have hc2 : c2 = ' ' := by injection hh
            simp only [List.tail] at h
            injection h with h
            injection h with h1 h2
            subst h1
            subst h2
            subst hc
            subst hc2
            exact ⟨rfl, rfl⟩
      · rename_i hcond
        cases hx : splitFirstDelim cs with
        | none => rw [hx] at h; exact absurd h (by simp)
        | some p =>
            rw [hx] at h
            simp only [Option.map_some'] at h
            injection h with h
            injection h with h1 h2
            obtain ⟨hdec, hdel⟩ := ih hx
            subst h1
            subst h2
            refine ⟨by rw [hdec]; rfl, ?_⟩
            simp only [hasDelim, hdel, Bool.or_false]
            rw [Bool.and_eq_false_iff]
            cases hp : p.1 with
            | nil => right; simp
            | cons x xs =>
                by_cases h1 : c = ':'
                · right
                  subst h1
                  have : cs.head? = some x := by rw [hdec, hp]; rfl
                  by_cases h2 : x = ' '
                  · subst h2
                    exact absurd ⟨rfl, this⟩ hcond
                  · simp [h2]
                · left; simp [h1]

/-! ## Lemmas about `strip` -/

/-- The newline predicate used by `strip('\n')`. -/
theorem stripNl_decompose (b : List Char) :
    ∃ i j, b = List.replicate i '\n' ++ pyStripChars ['\n'] b ++ List.replicate j '\n' := by
  set p : Char → Bool := fun c => decide (c ∈ ['\n']) with hp
  have hrepl : ∀ l : List Char, l.takeWhile p = List.replicate (l.takeWhile p).length '\n' := by
    intro l
    rw [List.eq_replicate_iff]
    refine ⟨rfl, ?_⟩
    intro x hx
    have := List.mem_takeWhile_imp hx
    simp [hp] at this
    exact this
  set d1 := b.dropWhile p with hd1
  have hb : b = List.replicate (b.takeWhile p).length '\n' ++ d1 := by
    conv_lhs => rw [← List.takeWhile_append_dropWhile (p := p) (l := b)]
    rw [← hrepl]
  have hcore : d1 = pyStripChars ['\n'] b ++
      List.replicate (d1.reverse.takeWhile p).length '\n' := by
    have h2 : d1.reverse = d1.reverse.takeWhile p ++ d1.reverse.dropWhile p :=
      (List.takeWhile_append_dropWhile (p := p) (l := d1.reverse)).symm
    have h3 := congrArg List.reverse h2
    simp only [List.reverse_reverse, List.reverse_append] at h3
    rw [hrepl d1.reverse, List.reverse_replicate] at h3
    exact h3
  refine ⟨(b.takeWhile p).length, (d1.reverse.takeWhile p).length, ?_⟩
  conv_lhs => rw [hb, hcore]
  simp [List.append_assoc]

theorem stripNl_head (b : List Char) :
    (pyStripChars ['\n'] b).head? ≠ some '\n' := by
  set p : Char → Bool := fun c => decide (c ∈ ['\n']) with hp
  intro hcontra
  set d1 := b.dropWhile p with hd1
  have hcore : pyStripChars ['\n'] b ++
      List.replicate (d1.reverse.takeWhile p).length '\n' = d1 := by
    have h2 : d1.reverse = d1.reverse.takeWhile p ++ d1.reverse.dropWhile p :=
      (List.takeWhile_append_dropWhile (p := p) (l := d1.reverse)).symm
    have h3 := congrArg List.reverse h2
    simp only [List.reverse_reverse, List.reverse_append] at h3
    have h4 : d1.reverse.takeWhile p = List.replicate (d1.reverse.takeWhile p).length '\n' := by
      rw [List.eq_replicate_iff]
      refine ⟨rfl, ?_⟩
      intro x hx
      have := List.mem_takeWhile_imp hx
      simp [hp] at this
      exact this
    rw [h4, List.reverse_replicate] at h3
    exact h3.symm
  have hd1head : d1.head? = some '\n' := by
    rw [← hcore]
    cases hc : pyStripChars ['\n'] b with
    | nil => rw [hc] at hcontra; simp at hcontra
    | cons x xs =>
        rw [hc] at hcontra
        simp at hcontra
        simp [hcontra]
  have := List.head?_dropWhile_not p b
  rw [← hd1] at this
  rw [hd1head] at this
  simp [hp] at this

theorem stripNl_last (b : List Char) :
    (pyStripChars ['\n'] b).getLast? ≠ some '\n' := by
  set p : Char → Bool := fun c => decide (c ∈ ['\n']) with hp
  intro hcontra
  have h1 : (pyStripChars ['\n'] b).getLast? =
      ((b.dropWhile p).reverse.dropWhile p).head? := by
    unfold pyStripChars
    rw [List.getLast?_reverse]
  rw [h1] at hcontra
  have := List.head?_dropWhile_not p (b.dropWhile p).reverse
  rw [hcontra] at this
  simp [hp] at this

/-! ## filterUser lemmas -/

theorem filterUser_overall (df : List Rec) : filterUser "Overall".data df = df := by
  simp [filterUser]

theorem filterUser_ne {u : List Char} (df : List Rec) (h : u ≠ "Overall".data) :
    filterUser u df = df.filter (fun r => decide (r.user = u)) := by
  simp [filterUser, h]

theorem filterUser_sub {u : List Char} {df : List Rec} {r : Rec}
    (h : r ∈ filterUser u df) : r ∈ df := by
  unfold filterUser at h
  split at h
  · exact List.mem_of_mem_filter h
  · exact h

/-! ## Concrete inputs used by the claims -/

/-- The example input of the specification. -/
def exC1 : List Char :=
  "1/1/23, 09:00 - Alice: Hello there\n1/1/23, 09:05 - Bob: <Media omitted>\n1/1/23, 09:06 - Alice added Bob\n".data

/-- An export whose first sender is literally `Overall`. -/
def exC3 : List Char := "1/1/23, 09:00 - Overall: hi\n1/1/23, 09:01 - Alice: yo\n".data

/-- An export whose message body begins with the `': '` delimiter. -/
def exC4 : List Char := "1/1/23, 09:00 - : hello\n".data

/-- An export whose message body ends in two newline characters. -/
def exC5 : List Char := "1/1/23, 09:00 - Alice: hi\n\n".data

/-! ## Claim C1 -/

/-- C1 counterexample: on the specification example input, `fetch_stats`
does not return `wordCount = 2`; the whitespace split counts the media
placeholder as 2 tokens and the system line as 3, so the word count is 7. -/
theorem c1_counterexample :
    fetch_stats "Overall".data (preprocess exC1) ≠ (3, 2, 1, 0) := by decide

/-- C1 (amended): the example input parses to exactly 3 records;
`fetch_stats("Overall")` returns messageCount 3, wordCount 7,
mediaCount 1, linkCount 0; the third line is attributed to the
group-notification sentinel; `most_busy_users` ranks Alice = 1 and
Bob = 1 with the sentinel excluded (each holding 50.00 percent,
represented as 5000 hundredths). -/
theorem c1_theorem :
    (preprocess exC1).length = 3 ∧
    fetch_stats "Overall".data (preprocess exC1) = (3, 7, 1, 0) ∧
    (preprocess exC1).map (fun r => r.user) =
      ["Alice".data, "Bob".data, "group_notification".data] ∧
    most_busy_users (preprocess exC1) =
      ([("Alice".data, 1), ("Bob".data, 1)],
       [("Alice".data, 5000), ("Bob".data, 5000)]) := by
  refine ⟨by decide, by decide, by decide, by decide⟩

/-! ## Claim C4 -/

/-- C4 counterexample: the body `': hello'` contains the delimiter at
position 0, so the parsed record's sender is the empty string — the
claim that every record has a non-empty sender fails. -/
theorem c4_counterexample :
    ¬ (∀ r ∈ preprocess exC4, r.user ≠ ([] : List Char)) := by decide

/-- C4 (amended): a record's sender never contains the `': '` delimiter,
and each record either carries the group-notification sentinel with a
delimiter-free message (the no-delimiter case) or its sender is the
(possibly empty) text before the first `': '` of the stripped body. -/
theorem c4_theorem (raw : List Char) (rec : Rec) (h : rec ∈ preprocess raw) :
    hasDelim rec.user = false ∧
    (rec.user = "group_notification".data ∧ hasDelim rec.message = false ∨
     ∃ p ∈ stampPairs raw,
       pyStripChars ['\n'] p.2 = rec.user ++ ':' :: ' ' :: rec.message) := by
  unfold preprocess at h
  rw [List.mem_filterMap] at h
  obtain ⟨t, ht, hsome⟩ := h
  rw [List.mem_map] at ht
  obtain ⟨p, hp, hpe⟩ := ht
  rw [Option.map_eq_some'] at hsome
  obtain ⟨d, _, hrec⟩ := hsome
  have huser : rec.user = t.2.1 := by rw [← hrec]; rfl
  have hmsg : rec.message = t.2.2 := by rw [← hrec]; rfl
  simp only [parseEntry] at hpe
  cases hsd : splitFirstDelim (pyStripChars ['\n'] p.2) with
  | none =>
      rw [hsd] at hpe
      have h1 : t.2.1 = "group_notification".data := by rw [← hpe]
      have h2 : t.2.2 = pyStripChars ['\n'] p.2 := by rw [← hpe]
      have h3 := splitFirstDelim_none hsd
      refine ⟨?_, Or.inl ⟨by rw [huser, h1], by rw [hmsg, h2]; exact h3⟩⟩
      rw [huser, h1]
      decide
  | some q =>
      rw [hsd] at hpe
      have h1 : t.2.1 = q.1 := by rw [← hpe]
      have h2 : t.2.2 = q.2 := by rw [← hpe]
      obtain ⟨heq, hdel⟩ := splitFirstDelim_some hsd
      refine ⟨by rw [huser, h1]; exact hdel, Or.inr ⟨p, hp, ?_⟩⟩
      rw [huser, hmsg, h1, h2]
      exact heq

/-- C4 witness: the amended statement holds on a concrete parsed record. -/
theorem c4_witness :
    (⟨⟨2023, 1, 1, 9, 0⟩, "Alice".data, "hi".data, 2023, "January".data,
        1, 1, 9, 0, "Sunday".data, (2023, 1, 1), none⟩ : Rec) ∈
      preprocess "1/1/23, 09:00 - Alice: hi\n".data ∧
    (hasDelim (⟨⟨2023, 1, 1, 9, 0⟩, "Alice".data, "hi".data, 2023, "January".data,
        1, 1, 9, 0, "Sunday".data, (2023, 1, 1), none⟩ : Rec).user = false ∧
     ((⟨⟨2023, 1, 1, 9, 0⟩, "Alice".data, "hi".data, 2023, "January".data,
        1, 1, 9, 0, "Sunday".data, (2023, 1, 1), none⟩ : Rec).user =
          "group_notification".data ∧
        hasDelim (⟨⟨2023, 1, 1, 9, 0⟩, "Alice".data, "hi".data, 2023, "January".data,
          1, 1, 9, 0, "Sunday".data, (2023, 1, 1), none⟩ : Rec).message = false ∨
      ∃ p ∈ stampPairs "1/1/23, 09:00 - Alice: hi\n".data,
        pyStripChars ['\n'] p.2 =
          (⟨⟨2023, 1, 1, 9, 0⟩, "Alice".data, "hi".data, 2023, "January".data,
            1, 1, 9, 0, "Sunday".data, (2023, 1, 1), none⟩ : Rec).user ++
            ':' :: ' ' ::
            (⟨⟨2023, 1, 1, 9, 0⟩, "Alice".data, "hi".data, 2023, "January".data,
              1, 1, 9, 0, "Sunday".data, (2023, 1, 1), none⟩ : Rec).message)) :=
  ⟨by decide, c4_theorem _ _ (by decide)⟩

/-! ## Claim C5 -/

/-- Stated spec behaviour of step 2, for comparison (follows the claim's
words): remove exactly one trailing newline when one is present. -/
def stripOneTrailingNewline (l : List Char) : List Char :=
  if l.getLast? = some '\n' then l.dropLast else l

/-- C5 counterexample: on the body `'Alice: hi\n\n'` the code's strip
(`strip('\n')`, both ends, all newlines) differs from removing a single
trailing newline, and the parsed record's text is `'hi'`, not `'hi\n'`. -/
theorem c5_counterexample :
    pyStripChars ['\n'] ("Alice: hi\n\n".data) ≠
      stripOneTrailingNewline ("Alice: hi\n\n".data) ∧
    (preprocess exC5).map (fun r => r.message) = ["hi".data] := by
  refine ⟨by decide, by decide⟩

/-- C5 (amended): step 2 strips ALL leading and trailing newline
characters from the body: the retained body is the original body with
maximal newline runs removed from both ends, and it neither starts nor
ends with a newline. -/
theorem c5_theorem (b : List Char) :
    (∃ i j, b = List.replicate i '\n' ++ pyStripChars ['\n'] b ++
      List.replicate j '\n') ∧
    (pyStripChars ['\n'] b).head? ≠ some '\n' ∧
    (pyStripChars ['\n'] b).getLast? ≠ some '\n' :=
  ⟨stripNl_decompose b, stripNl_head b, stripNl_last b⟩

/-! ## Claim C6 -/

/-- C6 counterexample: with the stopword file absent, `most_common_words`
fails at call time (the `open` inside the function raises), contradicting
the claim that the list is loaded once at startup and the view cannot
fail for this reason. -/
theorem c6_counterexample :
    most_common_words none ("Overall".data) [] = Except.error () := rfl

/-- C6 (amended): `most_common_words` and `create_wordcloud` read the
stopword file on every invocation; when the file is missing, each call
raises at call time, for every selected user and record table. -/
theorem c6_theorem (u : List Char) (df : List Rec) :
    most_common_words none u df = Except.error () ∧
    create_wordcloud none u df = Except.error () :=
  ⟨rfl, rfl⟩

/-! ## Claim C3 -/

/-- C3 counterexample: `preprocess` can produce a sender literally named
`Overall`; `fetch_stats("Overall")` then skips filtering, so summing the
per-sender message counts over the distinct senders gives 3 while the
overall count is 2. -/
theorem c3_counterexample :
    ((firstKeys ((preprocess exC3).map (fun r => r.user))).map
        (fun s => (fetch_stats s (preprocess exC3)).1)).sum ≠
      (fetch_stats "Overall".data (preprocess exC3)).1 := by decide

/-- C3 (amended): for every record table in which no sender is literally
the string `Overall`, the per-sender message counts over the distinct
senders sum to the overall message count. -/
theorem c3_theorem (df : List Rec) (h : ∀ r ∈ df, r.user ≠ "Overall".data) :
    ((firstKeys (df.map (fun r => r.user))).map
        (fun s => (fetch_stats s df).1)).sum =
      (fetch_stats "Overall".data df).1 := by
  have hover : (fetch_stats "Overall".data df).1 = df.length := by
    unfold fetch_stats
    rw [filterUser_overall]
    rfl
  rw [hover]
  have hstep : (firstKeys (df.map (fun r => r.user))).map
      (fun s => (fetch_stats s df).1) =
      (firstKeys (df.map (fun r => r.user))).map
        (fun s => (df.filter (fun r => decide (r.user = s))).length) := by
    apply List.map_congr_left
    intro s hs
    have hsmem : s ∈ df.map (fun r => r.user) := firstKeys_mem.mp hs
    obtain ⟨r, hr, hru⟩ := List.mem_map.mp hsmem
    have hsne : s ≠ "Overall".data := hru ▸ h r hr
    simp [fetch_stats, filterUser_ne df hsne, statsOf]
  rw [hstep]
  exact partition_length (fun r => r.user) df _
    (firstKeys_nodup _)
    (fun r hr => firstKeys_mem.mpr (List.mem_map.mpr ⟨r, hr, rfl⟩))

/-- C3 witness: the amended round-trip holds on the example table. -/
theorem c3_witness :
    (∀ r ∈ preprocess exC1, r.user ≠ "Overall".data) ∧
    ((firstKeys ((preprocess exC1).map (fun r => r.user))).map
        (fun s => (fetch_stats s (preprocess exC1)).1)).sum =
      (fetch_stats "Overall".data (preprocess exC1)).1 :=
  ⟨by decide, c3_theorem _ (by decide)⟩

/-! ## Claim C10 -/

/-- C10: when a table contains a sender literally named `Overall`,
invoking the views with `selectedUser = 'Overall'` still skips the filter
step entirely and computes over all records of the table, so no view can
restrict to that individual sender. -/
theorem c10_theorem (df : List Rec) (_h : ∃ r ∈ df, r.user = "Overall".data) :
    filterUser "Overall".data df = df ∧
    fetch_stats "Overall".data df = statsOf df ∧
    daily_timeline "Overall".data df = dailyOf df ∧
    activity_heatmap "Overall".data df = pivotOf (df.map addPeriod) := by
  refine ⟨filterUser_overall df, ?_, ?_, ?_⟩
  · unfold fetch_stats
    rw [filterUser_overall]
  · unfold daily_timeline
    rw [filterUser_overall]
  · unfold activity_heatmap
    rw [filterUser_overall]

/-- C10 witness: on a parsed table containing the sender `Overall`. -/
theorem c10_witness :
    (∃ r ∈ preprocess exC3, r.user = "Overall".data) ∧
    (filterUser "Overall".data (preprocess exC3) = preprocess exC3 ∧
     fetch_stats "Overall".data (preprocess exC3) = statsOf (preprocess exC3) ∧
     daily_timeline "Overall".data (preprocess exC3) = dailyOf (preprocess exC3) ∧
     activity_heatmap "Overall".data (preprocess exC3) =
       pivotOf ((preprocess exC3).map addPeriod)) :=
  ⟨by decide, c10_theorem _ (by decide)⟩

/-! ## Claim C7 -/

/-- C7: an empty input, or any input with no occurrence of the timestamp
pattern, parses to the empty table; and on the empty table every
aggregation view returns the empty/zero form of its result shape:
zero counts for `fetch_stats`, empty count and percentage tables for
`most_busy_users`, an empty (but successful) word table for
`most_common_words`, empty emoji, timeline and activity tables, and a
column-free heatmap whose 7 fixed weekday rows are all empty. -/
theorem c7_theorem (u stop raw : List Char) (h : findStamp raw = none) :
    preprocess ([] : List Char) = [] ∧
    preprocess raw = [] ∧
    fetch_stats u [] = (0, 0, 0, 0) ∧
    most_busy_users [] = ([], []) ∧
    most_common_words (some stop) u [] = Except.ok [] ∧
    emoji_helper u [] = [] ∧
    monthly_timeline u [] = [] ∧
    daily_timeline u [] = [] ∧
    pre_daily_timeline u [] = [] ∧
    week_activity_map u [] = [] ∧
    month_activity_map u [] = [] ∧
    activity_heatmap u [] = ([], weekdayNames.map (fun w => (w, none))) := by
  have hf : filterUser u [] = [] := by
    unfold filterUser
    split <;> rfl
  refine ⟨rfl, ?_, ?_, rfl, ?_, ?_, ?_, ?_, ?_, ?_, ?_, ?_⟩
  · simp [preprocess, stampPairs, h]
  · simp [fetch_stats, hf]; rfl
  · simp [most_common_words, hf]; rfl
  · simp [emoji_helper, hf]; rfl
  · simp [monthly_timeline, hf]; rfl
  · simp [daily_timeline, hf]; rfl
  · unfold pre_daily_timeline
    split <;> rfl
  · simp [week_activity_map, hf]; rfl
  · simp [month_activity_map, hf]; rfl
  · simp [activity_heatmap, hf, pivotOf, firstKeys]

/-- C7 witness: the no-match input of the specification example. -/
theorem c7_witness :
    findStamp ("not-a-date - garbage".data) = none ∧
    (preprocess ([] : List Char) = [] ∧
     preprocess ("not-a-date - garbage".data) = [] ∧
     fetch_stats "Alice".data [] = (0, 0, 0, 0) ∧
     most_busy_users [] = ([], []) ∧
     most_common_words (some []) "Alice".data [] = Except.ok [] ∧
     emoji_helper "Alice".data [] = [] ∧
     monthly_timeline "Alice".data [] = [] ∧
     daily_timeline "Alice".data [] = [] ∧
     pre_daily_timeline "Alice".data [] = [] ∧
     week_activity_map "Alice".data [] = [] ∧
     month_activity_map "Alice".data [] = [] ∧
     activity_heatmap "Alice".data [] = ([], weekdayNames.map (fun w => (w, none)))) :=
  ⟨by decide, c7_theorem "Alice".data [] _ (by decide)⟩

/-! ## Claim C8 -/

/-- C8: `most_busy_users` never lists the group-notification sentinel,
its count table is sorted descending by count, and the percentage table
pairs each listed sender with its share of the non-sentinel total,
rounded to 2 decimal places (represented in hundredths by `pct2`). -/
theorem c8_theorem (df : List Rec) :
    (∀ p ∈ (most_busy_users df).1, p.1 ≠ "group_notification".data) ∧
    List.Sorted descCount (most_busy_users df).1 ∧
    (most_busy_users df).2 = (most_busy_users df).1.map
      (fun p => (p.1, pct2 p.2 (((most_busy_users df).1.map (fun q => q.2)).sum))) := by
  refine ⟨?_, ?_, rfl⟩
  · intro p hp
    have := (List.mem_filter.mp hp).2
    simpa using this
  · exact List.Pairwise.filter _ (List.sorted_insertionSort descCount _)

/-! ## Claim C9 -/

theorem frame_copy_filter {u : List Char} {s : Store} {t : Table} {d i : Nat}
    (h : i < s.length) :
    getT (filterAlloc u d (allocT s t).2).2 i = getT s i := by
  rw [getT_filterAlloc (by rw [allocT_len]; omega), getT_allocT h]

theorem frame_copy_filter_alloc {u : List Char} {s : Store} {t t2 : Table} {d i : Nat}
    (h : i < s.length) :
    getT (allocT (filterAlloc u d (allocT s t).2).2 t2).2 i = getT s i := by
  have h1 : i < (filterAlloc u d (allocT s t).2).2.length :=
    Nat.lt_of_lt_of_le (by rw [allocT_len]; omega) filterAlloc_len
  rw [getT_allocT h1, frame_copy_filter h]

theorem frame_copy_filter_alloc2 {u : List Char} {s : Store} {t t2 t3 : Table} {d i : Nat}
    (h : i < s.length) :
    getT (allocT (allocT (filterAlloc u d (allocT s t).2).2 t2).2 t3).2 i = getT s i := by
  have h1 : i < (filterAlloc u d (allocT s t).2).2.length :=
    Nat.lt_of_lt_of_le (by rw [allocT_len]; omega) filterAlloc_len
  have h2 : i < (allocT (filterAlloc u d (allocT s t).2).2 t2).2.length := by
    rw [allocT_len]; omega
  rw [getT_allocT h2, getT_allocT h1, frame_copy_filter h]

theorem frame_heatmap {u : List Char} {df : Nat} {s : Store} {i : Nat}
    (h : i < s.length) :
    getT (activity_heatmap_st u df s).2 i = getT s i := by
  simp only [activity_heatmap_st]
  have hq1 : s.length ≤
      (filterAlloc u (allocT s (getT s df)).1 (allocT s (getT s df)).2).1 :=
    filterAlloc_fst_lb (Nat.le_of_eq (allocT_fst s _).symm) (by rw [allocT_len]; omega)
  rw [getT_setT_ne (by omega), frame_copy_filter h]

/-- C9: no aggregation view mutates the caller's record table. In the
store model, after any view runs, the table at the caller's reference is
exactly the table that was there before the call: `fetch_stats`,
`create_wordcloud`, `most_common_words`, `emoji_helper`, the timelines
and activity maps operate on a `df.copy()` (and freshly allocated
filtered frames); `most_busy_users` only reads; `activity_heatmap`
assigns its `period` column on the copy; `preprocessor.daily_timeline`
aliases the caller's frame for `'Overall'` but never writes through it. -/
theorem c9_theorem (stop : Option (List Char)) (u : List Char) (i : Nat) (s : Store)
    (h : i < s.length) :
    getT (fetch_stats_st u i s).2 i = getT s i ∧
    getT (most_busy_users_st i s).2 i = getT s i ∧
    getT (create_wordcloud_st stop u i s).2 i = getT s i ∧
    getT (most_common_words_st stop u i s).2 i = getT s i ∧
    getT (emoji_helper_st u i s).2 i = getT s i ∧
    getT (monthly_timeline_st u i s).2 i = getT s i ∧
    getT (daily_timeline_st u i s).2 i = getT s i ∧
    getT (pre_daily_timeline_st u i s).2 i = getT s i ∧
    getT (week_activity_map_st u i s).2 i = getT s i ∧
    getT (month_activity_map_st u i s).2 i = getT s i ∧
    getT (activity_heatmap_st u i s).2 i = getT s i := by
  refine ⟨?_, rfl, ?_, ?_, ?_, ?_, ?_, ?_, ?_, ?_, frame_heatmap h⟩
  · simp only [fetch_stats_st]
    exact frame_copy_filter h
  · cases stop with
    | none => rfl
    | some content =>
        simp only [create_wordcloud_st]
        exact frame_copy_filter_alloc h
  · cases stop with
    | none => rfl
    | some content =>
        simp only [most_common_words_st]
        exact frame_copy_filter_alloc2 h
  · simp only [emoji_helper_st]
    exact frame_copy_filter h
  · simp only [monthly_timeline_st]
    exact frame_copy_filter h
  · simp only [daily_timeline_st]
    exact frame_copy_filter h
  · simp only [pre_daily_timeline_st]
    exact getT_filterAlloc h
  · simp only [week_activity_map_st]
    exact frame_copy_filter h
  · simp only [month_activity_map_st]
    exact frame_copy_filter h

/-- A concrete parsed record used by witnesses. -/
def recA : Rec :=
  ⟨⟨2023, 1, 1, 9, 0⟩, "Alice".data, "hi".data, 2023, "January".data,
    1, 1, 9, 0, "Sunday".data, (2023, 1, 1), none⟩

/-- C9 witness: on a one-table store, each view leaves the table intact. -/
theorem c9_witness :
    0 < ([[recA]] : Store).length ∧
    (getT (fetch_stats_st "Overall".data 0 [[recA]]).2 0 = getT [[recA]] 0 ∧
     getT (most_busy_users_st 0 [[recA]]).2 0 = getT [[recA]] 0 ∧
     getT (create_wordcloud_st none "Overall".data 0 [[recA]]).2 0 = getT [[recA]] 0 ∧
     getT (most_common_words_st none "Overall".data 0 [[recA]]).2 0 = getT [[recA]] 0 ∧
     getT (emoji_helper_st "Overall".data 0 [[recA]]).2 0 = getT [[recA]] 0 ∧
     getT (monthly_timeline_st "Overall".data 0 [[recA]]).2 0 = getT [[recA]] 0 ∧
     getT (daily_timeline_st "Overall".data 0 [[recA]]).2 0 = getT [[recA]] 0 ∧
     getT (pre_daily_timeline_st "Overall".data 0 [[recA]]).2 0 = getT [[recA]] 0 ∧
     getT (week_activity_map_st "Overall".data 0 [[recA]]).2 0 = getT [[recA]] 0 ∧
     getT (month_activity_map_st "Overall".data 0 [[recA]]).2 0 = getT [[recA]] 0 ∧
     getT (activity_heatmap_st "Overall".data 0 [[recA]]).2 0 = getT [[recA]] 0) :=
  ⟨by decide, c9_theorem none "Overall".data 0 [[recA]] (by decide)⟩

/-! ## Claim C2 -/

/-- C2 counterexample: for a table with a single message (hour 9), the
heatmap has exactly one column (`'9-10'`), not 24 — `pivot_table` only
produces columns for period labels present in the data. -/
theorem c2_counterexample :
    (activity_heatmap "Overall".data
      (preprocess "2/1/23, 09:00 - Alice: hi\n".data)).1.length ≠ 24 := by decide

/-- C2 (amended): for tables whose weekday column holds weekday names
(as every parsed table does), the heatmap always has exactly 7 rows in
the fixed Monday..Sunday order, but its columns are exactly the period
labels `"H-(H+1)%24"` occurring in the filtered data (at most 24, sorted
as pandas sorts them); rows for weekdays present in the data hold
non-negative counts with missing combinations filled 0, rows for absent
weekdays are missing (all-NaN after `reindex`, modelled `none`), and the
sum of all present cells equals the filtered messageCount. -/
theorem c2_theorem (u : List Char) (df : List Rec)
    (h : ∀ r ∈ df, r.weekday ∈ weekdayNames) :
    ((activity_heatmap u df).2.map Prod.fst = weekdayNames) ∧
    (∀ c, c ∈ (activity_heatmap u df).1 ↔
      ∃ r ∈ filterUser u df, periodOf r.hour = c) ∧
    ((activity_heatmap u df).2.map (fun p => (p.2.getD []).sum)).sum =
      (fetch_stats u df).1 := by
  have hper : ∀ r ∈ (filterUser u df).map addPeriod,
      r.period = some (periodOf r.hour) := by
    intro r hr
    obtain ⟨r0, _, hr0⟩ := List.mem_map.mp hr
    rw [← hr0]; rfl
  have hwd : ∀ r ∈ (filterUser u df).map addPeriod, r.weekday ∈ weekdayNames := by
    intro r hr
    obtain ⟨r0, hr0m, hr0⟩ := List.mem_map.mp hr
    rw [← hr0]
    exact h r0 (filterUser_sub hr0m)
  refine ⟨?_, ?_, ?_⟩
  · show (List.map Prod.fst (weekdayNames.map (fun w => (w, _)))) = weekdayNames
    rw [List.map_map]
    exact List.map_id _
  · intro c
    show c ∈ List.insertionSort strLe (firstKeys
      (((filterUser u df).map addPeriod).map (fun r => r.period.getD []))) ↔ _
    rw [(List.perm_insertionSort strLe _).mem_iff, firstKeys_mem,
      List.map_map, List.mem_map]
    exact Iff.rfl
  · -- abbreviations
    set data := (filterUser u df).map addPeriod with hdata
    set rows0 := firstKeys (data.map (fun r => r.weekday)) with hrows0
    set cols := List.insertionSort strLe
      (firstKeys (data.map (fun r => r.period.getD []))) with hcolsdef
    have hcols_nodup : cols.Nodup :=
      (List.perm_insertionSort strLe _).nodup_iff.mpr (firstKeys_nodup _)
    have hcols_mem : ∀ r ∈ data, r.period.getD [] ∈ cols := by
      intro r hr
      rw [hcolsdef, (List.perm_insertionSort strLe _).mem_iff, firstKeys_mem]
      exact List.mem_map.mpr ⟨r, hr, rfl⟩
    show ((weekdayNames.map (fun w => (w,
        if w ∈ rows0 then
          some (cols.map (fun c =>
            (data.filter (fun r => decide (r.weekday = w ∧ r.period = some c))).length))
        else none))).map (fun p => (p.2.getD []).sum)).sum = (fetch_stats u df).1
    rw [List.map_map]
    have hpoint : ∀ w ∈ weekdayNames,
        ((fun p => ((p : List Char × Option (List Nat)).2.getD []).sum) ∘ (fun w => (w,
          if w ∈ rows0 then
            some (cols.map (fun c =>
              (data.filter (fun r => decide (r.weekday = w ∧ r.period = some c))).length))
          else none))) w =
        (data.filter (fun r => decide (r.weekday = w))).length := by
      intro w _
      by_cases hw : w ∈ rows0
      · simp only [Function.comp, if_pos hw, Option.getD_some]
        have hcell : ∀ c ∈ cols,
            (data.filter (fun r => decide (r.weekday = w ∧ r.period = some c))).length =
            ((data.filter (fun r => decide (r.weekday = w))).filter
              (fun r => decide (r.period.getD [] = c))).length := by
          intro c _
          rw [List.filter_filter]
          congr 1
          apply List.filter_congr
          intro r hr
          rw [hper r hr]
          simp [Bool.and_comm]
        rw [List.map_congr_left hcell]
        exact partition_length (fun r => r.period.getD [])
          (data.filter (fun r => decide (r.weekday = w))) cols hcols_nodup
          (fun r hr => hcols_mem r (List.mem_of_mem_filter hr))
      · simp only [Function.comp, if_neg hw, Option.getD_none, List.sum_nil]
        symm
        rw [List.length_eq_zero]
        rw [List.filter_eq_nil_iff]
        intro r hr
        simp only [decide_eq_true_eq]
        intro hrw
        exact hw (hrows0 ▸ firstKeys_mem.mpr
          (List.mem_map.mpr ⟨r, hr, hrw⟩))
    rw [List.map_congr_left hpoint]
    have hmain := partition_length (fun r => r.weekday) data weekdayNames
      (by decide) hwd
    rw [hmain]
    show data.length = (statsOf (filterUser u df)).1
    rw [hdata]
    exact List.length_map _ _

/-- C2 witness: the amended shape facts hold on the example table. -/
theorem c2_witness :
    (∀ r ∈ preprocess exC1, r.weekday ∈ weekdayNames) ∧
    (((activity_heatmap "Overall".data (preprocess exC1)).2.map Prod.fst =
        weekdayNames) ∧
     (∀ c, c ∈ (activity_heatmap "Overall".data (preprocess exC1)).1 ↔
       ∃ r ∈ filterUser "Overall".data (preprocess exC1), periodOf r.hour = c) ∧
     ((activity_heatmap "Overall".data (preprocess exC1)).2.map
        (fun p => (p.2.getD []).sum)).sum =
       (fetch_stats "Overall".data (preprocess exC1)).1) :=
  ⟨by decide, c2_theorem "Overall".data _ (by decide)⟩
